import Mathlib

/-!
Verification of the whispercat-rs core subsystems against their specification:
the silence-removal audio analyzer (src/audio/processor.rs, src/audio/buffer.rs)
and the text post-processing pipeline engine (src/pipeline/mod.rs).

Modelling conventions:
- Rust machine integers (u32, u16, usize) are modelled as Nat; the source never
  relies on wrap-around in the verified fragment, and usize/u32 division is
  Nat division.
- f32 sample values and RMS statistics are modelled over the rationals. The
  source compares sqrt(mean of squares) with a threshold; sqrt is not exactly
  representable, so the analysis tracks the squared quantities (mean of
  squares, squared threshold). sqrt is strictly monotone on the nonnegatives,
  so silence classification and the zero-ness of each statistic transfer
  exactly. The sentinel initializations f32::MAX and f32::MIN are kept as the
  exact rational values of those constants.
- Rust panics (slice index out of range, chunks with size 0) are modelled by
  Option: none is a panic, some is normal return.
- The external completion service is a parameter: a deterministic function
  from a chat request to a result. Executor functions additionally return the
  list of external calls performed, so call-count properties are statable.
- The external regex engine is a parameter (structure RegexEngine). A concrete
  instance, literalEngine, models the documented behaviour of the regex crate
  on patterns that denote a literal string (every metacharacter escaped):
  leftmost non-overlapping literal matching, optional case-insensitivity, and
  dollar-sequence expansion in the replacement string. regex::escape always
  produces such a pattern.
- Wall-clock timestamps and durations are not derivable from the code; log
  entry timestamps and per-entry durations are omitted, and the total duration
  of a normally-completed run is an explicit parameter. The short-circuit
  paths of the source return Duration::from_secs(0) literally, which is
  modelled as the literal 0.
-/

namespace WhisperCat

/-! ### Model of the external regex engine (regex crate), literal fragment -/

/-- The characters regex::escape treats as metacharacters and escapes
(regex-syntax is_meta_character). -/
def isRegexMeta (c : Char) : Bool :=
  c == '\\' || c == '.' || c == '+' || c == '*' || c == '?' || c == '(' ||
  c == ')' || c == '|' || c == '[' || c == ']' || c == Char.ofNat 123 ||
  c == Char.ofNat 125 || c == '^' || c == '$' || c == '#' || c == '&' ||
  c == '-' || c == '~'

/-- regex::escape on a character list: prefix every metacharacter with a
backslash. -/
def escapeChars : List Char → List Char
  | [] => []
  | c :: rest =>
    if isRegexMeta c then '\\' :: c :: escapeChars rest else c :: escapeChars rest

/-- regex::escape. -/
def regexEscape (s : String) : String := ⟨escapeChars s.data⟩

/-- Parse a pattern that denotes a literal string: a backslash followed by a
metacharacter stands for that character, a plain non-metacharacter stands for
itself, anything else (an unescaped metacharacter, a trailing backslash, an
escape of a non-metacharacter such as a character class) is outside the
literal fragment. -/
def parseLiteralPattern : List Char → Option (List Char)
  | [] => some []
  | c :: rest =>
    if c = '\\' then
      match rest with
      | [] => none
      | d :: rest2 =>
        if isRegexMeta d then (parseLiteralPattern rest2).map (d :: ·) else none
    else if isRegexMeta c then none
    else (parseLiteralPattern rest).map (c :: ·)

/-- Character comparison used for matching: exact, or after case folding.
Simple case folding is modelled with Char.toLower, which agrees with the
regex crate on ASCII. -/
def charMatches (ci : Bool) (a b : Char) : Bool :=
  if ci then a.toLower == b.toLower else a == b

/-- Does the pattern match an initial segment of the input, character by
character (case-insensitively when ci is set)? -/
def ciStartsWith (ci : Bool) : List Char → List Char → Bool
  | [], _ => true
  | _ :: _, [] => false
  | p :: ps, c :: cs => charMatches ci p c && ciStartsWith ci ps cs

/-- Characters allowed in a capture group name in a replacement string
(regex crate: letters, digits, underscore). -/
def isCaptureNameChar (c : Char) : Bool := c.isAlphanum || c == '_'

/-- Value of a capture group reference for a literal pattern: only group 0
(the whole match) exists; any other reference expands to the empty string,
as the regex crate does for nonexistent groups. -/
def groupValue (whole : List Char) (name : List Char) : List Char :=
  if name = ['0'] then whole else []

/-- Dollar-sequence expansion performed by the regex crate when a plain string
is used as the replacement: a double dollar is a literal dollar, a dollar
followed by a (possibly braced) name is a capture group reference, any other
dollar is literal. Fuel-indexed structural recursion; fuel = length + 1 always
suffices since every step consumes at least one character. -/
def expandGo (whole : List Char) : ℕ → List Char → List Char
  | 0, _ => []
  | _ + 1, [] => []
  | fuel + 1, c :: rest =>
    if c == '$' then
      match rest with
      | '$' :: rest2 => '$' :: expandGo whole fuel rest2
      | lb :: rest2 =>
        if lb == Char.ofNat 123 then
          match rest2.dropWhile (fun d => d != Char.ofNat 125) with
          | _ :: rest3 =>
            groupValue whole (rest2.takeWhile (fun d => d != Char.ofNat 125)) ++
              expandGo whole fuel rest3
          | [] => '$' :: expandGo whole fuel rest
        else
          let name := rest.takeWhile isCaptureNameChar
          if name.isEmpty then '$' :: expandGo whole fuel rest
          else groupValue whole name ++ expandGo whole fuel (rest.dropWhile isCaptureNameChar)
      | [] => ['$']
    else c :: expandGo whole fuel rest

/-- Expand dollar sequences in a replacement, given the whole match. -/
def expandDollar (whole repl : List Char) : List Char :=
  expandGo whole (repl.length + 1) repl

/-- Leftmost, non-overlapping replace-all of a literal pattern, with
dollar-sequence expansion of the replacement, as the regex crate performs for
a compiled literal pattern. An empty pattern matches the empty string at every
position including the end. Fuel-indexed; every step consumes at least one
input character, so fuel = input length + 1 suffices. -/
def rxGo (ci : Bool) (pat repl : List Char) : ℕ → List Char → List Char
  | 0, _ => []
  | _ + 1, [] => if pat.isEmpty then expandDollar [] repl else []
  | fuel + 1, c :: rest =>
    if pat.isEmpty then expandDollar [] repl ++ c :: rxGo ci pat repl fuel rest
    else if ciStartsWith ci pat (c :: rest) then
      expandDollar ((c :: rest).take pat.length) repl ++
        rxGo ci pat repl fuel ((c :: rest).drop pat.length)
    else c :: rxGo ci pat repl fuel rest

/-- replace_all of a compiled literal pattern over character lists. -/
def literalReplaceAll (pat : List Char) (ci : Bool) (repl input : List Char) : List Char :=
  rxGo ci pat repl (input.length + 1) input

/-- Rust str::replace / String::replace: leftmost non-overlapping literal
matching, case sensitive, replacement inserted verbatim (no dollar
expansion). An empty pattern matches at every position including the end
(match_indices semantics). -/
def strReplaceGo (pat repl : List Char) : ℕ → List Char → List Char
  | 0, _ => []
  | _ + 1, [] => if pat.isEmpty then repl else []
  | fuel + 1, c :: rest =>
    if pat.isEmpty then repl ++ c :: strReplaceGo pat repl fuel rest
    else if ciStartsWith false pat (c :: rest) then
      repl ++ strReplaceGo pat repl fuel ((c :: rest).drop pat.length)
    else c :: strReplaceGo pat repl fuel rest

/-- Rust input.replace(pat, repl). -/
def strReplace (input pat repl : String) : String :=
  ⟨strReplaceGo pat.data repl.data (input.data.length + 1) input.data⟩

/-! ### Error type and external collaborators -/

/-- Errors reachable in the verified fragment of WhisperCatError:
an external completion call failure (ApiError) and a regex compilation
failure (RegexError). -/
inductive PipeError
  | api (status : ℕ) (message : String)
  | regexError (pattern : String)
deriving DecidableEq

/-- One request to the external completion service:
TranscriptionClient::chat_completion(system_prompt, user_prompt, model). -/
structure ChatCall where
  system_prompt : String
  user_prompt : String
  model : String
deriving DecidableEq

/-- The external regex engine as a collaborator: compile a pattern (with a
case-insensitivity flag) and run replace_all with a plain replacement string;
an error is a failed compilation. -/
structure RegexEngine where
  replaceAll : String → Bool → String → String → Except PipeError String

/-- The regex engine restricted to the literal fragment: patterns in which
every metacharacter is escaped are matched literally; other patterns are
outside the model and rejected. regex::escape always lands in the fragment. -/
def literalEngine : RegexEngine :=
  ⟨fun pat ci repl input =>
    match parseLiteralPattern pat.data with
    | some lits => .ok ⟨literalReplaceAll lits ci repl.data input.data⟩
    | none => .error (.regexError pat)⟩

/-! ### Pipeline data model (src/pipeline/mod.rs) -/

/-- enum Provider. -/
inductive Provider
  | OpenAI
deriving DecidableEq

/-- enum UnitType: configuration payload of a ProcessingUnit. -/
inductive UnitType
  | Prompt (provider : Provider) (model system_prompt user_prompt_template : String)
  | TextReplacement (find replace : String) (regex case_sensitive : Bool)
deriving DecidableEq

/-- struct ProcessingUnit. Uuids are modelled as Nat; the created_at and
updated_at timestamps are wall-clock data never read by the executor and are
omitted. -/
structure ProcessingUnit where
  id : ℕ
  name : String
  description : Option String
  unit_type : UnitType
deriving DecidableEq

/-- struct PipelineUnitReference. -/
structure PipelineUnitReference where
  unit_id : ℕ
  enabled : Bool
deriving DecidableEq

/-- Legacy enum Unit (inline units, backward compatibility path). -/
inductive Unit
  | Prompt (id : ℕ) (name : String) (provider : Provider)
      (model system_prompt user_prompt_template : String)
  | TextReplacement (id : ℕ) (name : String) (find replace : String)
      (regex case_sensitive : Bool)
deriving DecidableEq

/-- Unit::name. -/
def Unit.name : Unit → String
  | .Prompt _ n _ _ _ _ => n
  | .TextReplacement _ n _ _ _ _ => n

/-- struct Pipeline; timestamps omitted as for ProcessingUnit. -/
structure Pipeline where
  id : ℕ
  name : String
  description : Option String
  enabled : Bool
  unit_refs : List PipelineUnitReference
  units : List Unit
deriving DecidableEq

/-- struct UnitBatch. -/
structure UnitBatch where
  units : List Unit
  optimizable : Bool
  provider : Option Provider
  model : Option String
deriving DecidableEq

/-- struct ExecutionLogEntry; the Utc timestamp and the wall-clock duration
are omitted (not derivable from the code). -/
structure ExecutionLogEntry where
  unit_name : String
  input : String
  output : String
  optimized : Bool
deriving DecidableEq

/-- struct ExecutionResult; total_duration in the model is the literal 0 on
the short-circuit paths (Duration::from_secs(0) in the source) and an
explicit parameter on the normally-completed path (wall clock in the
source). -/
structure ExecutionResult where
  output : String
  log_entries : List ExecutionLogEntry
  total_duration : ℕ
deriving DecidableEq

/-! ### Batch planner (PipelineExecutor::create_batches) -/

/-- Loop body and final flush of create_batches. The three arguments after
the unit list are the loop state: current_batch, current_provider,
current_model. Mid-loop flushes mark a batch optimizable iff it has at least
two units; the final flush marks it optimizable iff current_provider and
current_model are set, exactly as the source does. -/
def create_batchesGo : List Unit → List Unit → Option Provider → Option String → List UnitBatch
  | [], curB, curP, curM =>
    if curB.isEmpty then [] else [⟨curB, curP.isSome && curM.isSome, curP, curM⟩]
  | u :: us, curB, curP, curM =>
    match u with
    | .Prompt _ _ p m _ _ =>
      match curP, curM with
      | some bp, some bm =>
        if p = bp ∧ m = bm then
          create_batchesGo us (curB ++ [u]) curP curM
        else
          (if curB.isEmpty then [] else [⟨curB, decide (2 ≤ curB.length), curP, curM⟩]) ++
            create_batchesGo us [u] (some p) (some m)
      | _, _ => create_batchesGo us (curB ++ [u]) (some p) (some m)
    | .TextReplacement _ _ _ _ _ _ =>
      (if curB.isEmpty then [] else [⟨curB, decide (2 ≤ curB.length), curP, curM⟩]) ++
        ⟨[u], false, none, none⟩ :: create_batchesGo us [] none none

/-- PipelineExecutor::create_batches. -/
def create_batches (units : List Unit) : List UnitBatch :=
  create_batchesGo units [] none none

/-! ### Executor (PipelineExecutor) -/

/-- The literal placeholder substituted into user prompt templates. -/
def inputPlaceholder : String := "\x7b\x7binput\x7d\x7d"

/-- The synthetic marker substituted for step k greater than 0 in a compiled
chain. -/
def stepOutputMarker (k : ℕ) : String := "\x7bSTEP_" ++ toString k ++ "_OUTPUT\x7d"

/-- PipelineExecutor::execute_unit_type. Returns the result together with the
list of external completion calls performed (one for a Prompt, none for a
TextReplacement). -/
def execute_unit_type (client : ChatCall → Except PipeError String) (rx : RegexEngine)
    (input : String) : UnitType → Except PipeError String × List ChatCall
  | .Prompt _ model system_prompt user_prompt_template =>
    let user_prompt := strReplace user_prompt_template inputPlaceholder input
    (client ⟨system_prompt, user_prompt, model⟩, [⟨system_prompt, user_prompt, model⟩])
  | .TextReplacement find replace regex case_sensitive =>
    if regex then
      (rx.replaceAll find (!case_sensitive) replace input, [])
    else if case_sensitive then
      (.ok (strReplace input find replace), [])
    else
      (rx.replaceAll (regexEscape find) true replace input, [])

/-- PipelineExecutor::execute_unit (legacy Unit); same branches as
execute_unit_type. -/
def execute_unit (client : ChatCall → Except PipeError String) (rx : RegexEngine)
    (input : String) : Unit → Except PipeError String × List ChatCall
  | .Prompt _ _ _ model system_prompt user_prompt_template =>
    let user_prompt := strReplace user_prompt_template inputPlaceholder input
    (client ⟨system_prompt, user_prompt, model⟩, [⟨system_prompt, user_prompt, model⟩])
  | .TextReplacement _ _ find replace regex case_sensitive =>
    if regex then
      (rx.replaceAll find (!case_sensitive) replace input, [])
    else if case_sensitive then
      (.ok (strReplace input find replace), [])
    else
      (rx.replaceAll (regexEscape find) true replace input, [])

/-- Reference resolution loop of execute_with_units: skip disabled
references, look each unit id up in the store, skip (with a logged warning)
any id that is not found. -/
def resolve_units (pipeline : Pipeline) (units : List ProcessingUnit) : List ProcessingUnit :=
  pipeline.unit_refs.filterMap fun r =>
    if r.enabled then units.find? (fun u => u.id == r.unit_id) else none

/-- The per-unit execution loop of execute_with_units: each resolved unit is
executed individually against the running text and appends one log entry with
optimized = false. On the first failing unit the loop aborts; the calls
performed so far are still reported in the trace component. -/
def run_units (client : ChatCall → Except PipeError String) (rx : RegexEngine) :
    String → List ProcessingUnit →
    Except PipeError (String × List ExecutionLogEntry) × List ChatCall
  | text, [] => (.ok (text, []), [])
  | text, u :: us =>
    match execute_unit_type client rx text u.unit_type with
    | (.error e, calls) => (.error e, calls)
    | (.ok out, calls) =>
      match run_units client rx out us with
      | (.error e, calls2) => (.error e, calls ++ calls2)
      | (.ok (fin, entries), calls2) =>
        (.ok (fin, ⟨u.name, text, out, false⟩ :: entries), calls ++ calls2)

/-- PipelineExecutor::execute_with_units. elapsed is the wall-clock total
duration of a normally-completed run (a measurement, not derivable from the
code); the two short-circuit paths return Duration::from_secs(0), modelled as
the literal 0. -/
def execute_with_units (client : ChatCall → Except PipeError String) (rx : RegexEngine)
    (elapsed : ℕ) (input : String) (pipeline : Pipeline) (units : List ProcessingUnit) :
    Except PipeError ExecutionResult × List ChatCall :=
  if !pipeline.enabled then (.ok ⟨input, [], 0⟩, [])
  else
    let resolved := resolve_units pipeline units
    if resolved.isEmpty then (.ok ⟨input, [], 0⟩, [])
    else
      match run_units client rx input resolved with
      | (.error e, calls) => (.error e, calls)
      | (.ok (fin, entries), calls) => (.ok ⟨fin, entries, elapsed⟩, calls)

/-- PipelineExecutor::compile_chained_prompt: one system/user prompt pair for
a whole batch. Step labels are 1-based; step 0 of the user prompt receives
the actual input, later steps receive the synthetic step-output marker. -/
def compile_chained_prompt (input : String) (batch : UnitBatch) : String × String :=
  let sysParts := batch.units.enum.filterMap fun iu =>
    match iu.2 with
    | .Prompt _ name _ _ system_prompt _ =>
      some ("## Step " ++ toString (iu.1 + 1) ++ ": " ++ name ++ "\n" ++ system_prompt)
    | _ => none
  let userParts := batch.units.enum.filterMap fun iu =>
    match iu.2 with
    | .Prompt _ name _ _ _ user_prompt_template =>
      let stepUser :=
        if iu.1 = 0 then strReplace user_prompt_template inputPlaceholder input
        else strReplace user_prompt_template inputPlaceholder (stepOutputMarker iu.1)
      some ("### Step " ++ toString (iu.1 + 1) ++ ": " ++ name ++ "\n" ++ stepUser)
    | _ => none
  ("You are executing a chained processing pipeline. Process each step sequentially, using the output from each step as input to the next.\n\n"
     ++ String.intercalate "\n\n" sysParts,
   "Execute the following steps in order:\n\n" ++ String.intercalate "\n\n" userParts
     ++ "\n\nProvide ONLY the final output from the last step.")

/-- PipelineExecutor::execute_batch_optimized: compile the chained prompt,
perform exactly one external call, and produce the single optimized = true
log entry. The source unwraps batch.model; none is unreachable for batches
produced by the planner along the optimizable path and is defaulted to the
empty string here. -/
def execute_batch_optimized (client : ChatCall → Except PipeError String)
    (input : String) (batch : UnitBatch) :
    Except PipeError (String × ExecutionLogEntry) × List ChatCall :=
  let prompts := compile_chained_prompt input batch
  let call : ChatCall := ⟨prompts.1, prompts.2, batch.model.getD ""⟩
  match client call with
  | .error e => (.error e, [call])
  | .ok out =>
    (.ok (out, ⟨"OPTIMIZED CHAIN (" ++ toString batch.units.length ++ " units)",
                input, out, true⟩), [call])

/-- The inner per-unit loop of the legacy execute for a non-optimizable
batch: each contained unit runs individually with an optimized = false log
entry. -/
def run_batch_units (client : ChatCall → Except PipeError String) (rx : RegexEngine) :
    String → List Unit →
    Except PipeError (String × List ExecutionLogEntry) × List ChatCall
  | text, [] => (.ok (text, []), [])
  | text, u :: us =>
    match execute_unit client rx text u with
    | (.error e, calls) => (.error e, calls)
    | (.ok out, calls) =>
      match run_batch_units client rx out us with
      | (.error e, calls2) => (.error e, calls ++ calls2)
      | (.ok (fin, entries), calls2) =>
        (.ok (fin, ⟨u.name, text, out, false⟩ :: entries), calls ++ calls2)

/-- Body of the batch loop of the legacy execute for one batch: the
optimizable path is one chained call with one optimized = true entry, the
non-optimizable path runs the contained units individually. -/
def run_one_batch (client : ChatCall → Except PipeError String) (rx : RegexEngine)
    (text : String) (b : UnitBatch) :
    Except PipeError (String × List ExecutionLogEntry) × List ChatCall :=
  if b.optimizable then
    match execute_batch_optimized client text b with
    | (.error e, calls) => (.error e, calls)
    | (.ok (out, entry), calls) => (.ok (out, [entry]), calls)
  else
    run_batch_units client rx text b.units

/-- The batch loop of the legacy execute: batches strictly in order, aborting
on the first failure. -/
def run_batches (client : ChatCall → Except PipeError String) (rx : RegexEngine) :
    String → List UnitBatch →
    Except PipeError (String × List ExecutionLogEntry) × List ChatCall
  | text, [] => (.ok (text, []), [])
  | text, b :: bs =>
    match run_one_batch client rx text b with
    | (.error e, calls) => (.error e, calls)
    | (.ok (out, entries), calls) =>
      match run_batches client rx out bs with
      | (.error e, calls2) => (.error e, calls ++ calls2)
      | (.ok (fin, entries2), calls2) =>
        (.ok (fin, entries ++ entries2), calls ++ calls2)

/-- Batch planning step of the legacy execute: create_batches when
optimization is enabled, otherwise one singleton non-optimizable batch per
unit. -/
def plan_batches (optimization_enabled : Bool) (pipeline : Pipeline) : List UnitBatch :=
  if optimization_enabled then create_batches pipeline.units
  else pipeline.units.map fun u => ⟨[u], false, none, none⟩

/-- Legacy PipelineExecutor::execute over the inline unit list. Note that the
source performs no pipeline.enabled check on this path. elapsed is the
wall-clock total duration parameter. -/
def Pipeline.execute (client : ChatCall → Except PipeError String) (rx : RegexEngine)
    (elapsed : ℕ) (optimization_enabled : Bool) (input : String) (pipeline : Pipeline) :
    Except PipeError ExecutionResult × List ChatCall :=
  match run_batches client rx input (plan_batches optimization_enabled pipeline) with
  | (.error e, calls) => (.error e, calls)
  | (.ok (fin, entries), calls) => (.ok ⟨fin, entries, elapsed⟩, calls)

/-! ### Silence analyzer (src/audio/processor.rs, src/audio/buffer.rs) -/

/-- The exact rational value of the f32 constant f32::MAX, used by the source
as the initial accumulator for the minimum RMS. -/
def f32Max : ℚ := ((2 ^ 128 - 2 ^ 104 : ℕ) : ℚ)

/-- struct AudioBuffer; samples are f32 amplitudes modelled as rationals. -/
structure AudioBuffer where
  samples : List ℚ
  sample_rate : ℕ
  channels : ℕ
deriving DecidableEq

/-- AudioBuffer::duration in seconds: usize division of the sample count by
the channel count (Nat division), then division by the sample rate. none
models the panics of the source: division by zero when channels is 0, and
Duration::from_secs_f64 on the NaN or infinite quotient when sample_rate
is 0. -/
def AudioBuffer.duration (b : AudioBuffer) : Option ℚ :=
  if b.channels = 0 then none
  else if b.sample_rate = 0 then none
  else some (((b.samples.length / b.channels : ℕ) : ℚ) / (b.sample_rate : ℚ))

/-- struct SilenceRegion: a half-open sample-index range. -/
structure SilenceRegion where
  start_frame : ℕ
  end_frame : ℕ
deriving DecidableEq

/-- struct SilenceAnalysis. The three RMS statistics are tracked on the
squared scale (mean of squares instead of its square root, which is not
representable in ℚ); sqrt is strictly monotone on the nonnegatives, so a
statistic is zero in the source exactly when it is zero here, and the
sentinel initializations are kept verbatim. -/
structure SilenceAnalysis where
  min_rms : ℚ
  max_rms : ℚ
  avg_rms : ℚ
  silence_regions : List SilenceRegion
  reduction_percent : ℚ
  original_duration : ℚ
  new_duration : ℚ
deriving DecidableEq

/-- struct SilenceRemover; threshold_sq is the square of the f32 RMS
threshold (the source compares sqrt(mean of squares) with a nonnegative
threshold, which is equivalent to comparing the mean of squares with its
square). -/
structure SilenceRemover where
  threshold_sq : ℚ
  min_duration_ms : ℕ
  window_size_ms : ℕ
deriving DecidableEq

/-- SilenceRemover::new: the window size is fixed at 100 ms. -/
def SilenceRemover.new (threshold_sq : ℚ) (min_duration_ms : ℕ) : SilenceRemover :=
  ⟨threshold_sq, min_duration_ms, 100⟩

/-- calculate_rms, on the squared scale: mean of the squared samples, 0 for
an empty window. -/
def calculate_rms_sq (samples : List ℚ) : ℚ :=
  if samples.isEmpty then 0
  else (samples.map fun s => s * s).sum / (samples.length : ℚ)

/-- slice::chunks with a positive chunk size, fuel-indexed: fuel at least the
list length makes the result the full chunk decomposition (every chunk of
length w except a possibly shorter final one). The source panics when the
chunk size is 0; remove_silence models that case before calling this. -/
def chunksF (w : ℕ) : ℕ → List ℚ → List (List ℚ)
  | 0, _ => []
  | _ + 1, [] => []
  | fuel + 1, a :: l => (a :: l).take w :: chunksF w fuel ((a :: l).drop w)

/-- Window size in samples: (sample_rate as f64 * window_size_ms as f64 /
1000.0) as usize. For every u32 sample rate the f64 computation is exact
enough that the truncation equals Nat division, which is how it is modelled. -/
def windowSamples (cfg : SilenceRemover) (audio : AudioBuffer) : ℕ :=
  audio.sample_rate * cfg.window_size_ms / 1000

/-- The list of per-window mean-square RMS values of a buffer. -/
def windowRms (cfg : SilenceRemover) (audio : AudioBuffer) : List ℚ :=
  (chunksF (windowSamples cfg audio) audio.samples.length audio.samples).map calculate_rms_sq

/-- Per-window silence flags: a window is silent when its RMS is strictly
below the threshold. -/
def silenceFlags (cfg : SilenceRemover) (audio : AudioBuffer) : List Bool :=
  (windowRms cfg audio).map fun r => decide (r < cfg.threshold_sq)

/-- The silence-region marking loop of remove_silence. Arguments: the
qualification bound in windows (min_duration_ms / window_size_ms), the window
size in samples, the total sample count (used as the end of a trailing
region), then the remaining flags, the current window index, and the start of
the open silent run if any. A run ended by a non-silent window at index i
qualifies iff i - start is at least the bound, producing the region
[start*w, i*w); a run still open at the end of the flags qualifies under the
same rule, producing [start*w, total). -/
def find_silence_regions (minW w total : ℕ) :
    List Bool → ℕ → Option ℕ → List SilenceRegion
  | [], i, st =>
    match st with
    | some s => if minW ≤ i - s then [⟨s * w, total⟩] else []
    | none => []
  | b :: rest, i, st =>
    if b then
      find_silence_regions minW w total rest (i + 1)
        (match st with | none => some i | some s => some s)
    else
      match st with
      | some s =>
        (if minW ≤ i - s then [⟨s * w, i * w⟩] else []) ++
          find_silence_regions minW w total rest (i + 1) none
      | none => find_silence_regions minW w total rest (i + 1) none

/-- Specification-side list of maximal runs of consecutive true flags, as
half-open (start, end) window-index pairs, with the same loop state as
find_silence_regions. -/
def silent_runs : List Bool → ℕ → Option ℕ → List (ℕ × ℕ)
  | [], i, st =>
    match st with
    | some s => [(s, i)]
    | none => []
  | b :: rest, i, st =>
    if b then
      silent_runs rest (i + 1) (match st with | none => some i | some s => some s)
    else
      match st with
      | some s => (s, i) :: silent_runs rest (i + 1) none
      | none => silent_runs rest (i + 1) none

/-- Rust slice indexing samples[a..b]: none models the panic when the bounds
are invalid. -/
def listSlice (l : List ℚ) (a b : ℕ) : Option (List ℚ) :=
  if a ≤ b ∧ b ≤ l.length then some ((l.drop a).take (b - a)) else none

/-- The output-reconstruction loop of remove_silence: concatenate, in order,
the sample ranges between the removable regions and the tail after the last
one. Slice bounds are checked as in the source (a violating region would
panic). -/
def rebuild_samples (samples : List ℚ) : ℕ → List SilenceRegion → Option (List ℚ)
  | last_end, [] => listSlice samples last_end samples.length
  | last_end, r :: rs =>
    match listSlice samples last_end r.start_frame with
    | none => none
    | some seg => (rebuild_samples samples r.end_frame rs).map (seg ++ ·)

/-- SilenceRemover::remove_silence. none models a panic: chunks with a zero
window size (sample_rate * window_size_ms < 1000), an out-of-bounds slice
during reconstruction, or the division by zero inside AudioBuffer::duration
when channels is 0 (reached unconditionally after the reconstruction). The
RMS statistics fold exactly as in the source, with the f32::MAX / f32::MIN
sentinels; min_duration_ms / window_size_ms is u32 division. -/
def remove_silence (cfg : SilenceRemover) (audio : AudioBuffer) :
    Option (AudioBuffer × SilenceAnalysis) :=
  let w := windowSamples cfg audio
  if w = 0 then none
  else
    let rmsValues := windowRms cfg audio
    let min_rms := rmsValues.foldl min f32Max
    let max_rms := rmsValues.foldl max (-f32Max)
    let avg_rms := if rmsValues.isEmpty then 0 else rmsValues.sum / (rmsValues.length : ℚ)
    let minW := cfg.min_duration_ms / cfg.window_size_ms
    let regions := find_silence_regions minW w audio.samples.length
      (silenceFlags cfg audio) 0 none
    match rebuild_samples audio.samples 0 regions with
    | none => none
    | some newSamples =>
      let newBuf : AudioBuffer := ⟨newSamples, audio.sample_rate, audio.channels⟩
      match audio.duration with
      | none => none
      | some od =>
        match newBuf.duration with
        | none => none
        | some nd =>
          let reduction := if 0 < od then (od - nd) / od * 100 else 0
          some (newBuf, ⟨min_rms, max_rms, avg_rms, regions, reduction, od, nd⟩)

/-! ### Auxiliary definitions for the verification -/

/-- Well-formedness of a region list for output reconstruction: successive
regions are ordered, half-open, within the sample count, and the first
starts at or after the given lower bound. Every region list produced by
find_silence_regions satisfies this, which is why the slice indexing of the
reconstruction loop never panics. -/
def RegionsOK (len : ℕ) : ℕ → List SilenceRegion → Prop
  | _, [] => True
  | lb, r :: rs =>
    lb ≤ r.start_frame ∧ r.start_frame ≤ r.end_frame ∧ r.end_frame ≤ len ∧
      RegionsOK len r.end_frame rs

/-- Is a resolved unit a Prompt unit (the kind that performs an external
completion call)? -/
def isPromptUnit (u : ProcessingUnit) : Bool :=
  match u.unit_type with
  | .Prompt _ _ _ _ => true
  | .TextReplacement _ _ _ _ => false

/-- Number of Prompt units in a resolved unit list. -/
def promptCount (us : List ProcessingUnit) : ℕ := (us.filter isPromptUnit).length

/-- Client oracle used in concrete executor runs: every completion call
returns the text out. -/
def constClient : ChatCall → Except PipeError String := fun _ => .ok "out"

/-- Failing client oracle: every completion call fails with status 500. -/
def failClient : ChatCall → Except PipeError String := fun _ => .error (.api 500 "boom")

/-- The input of the worked batching example: two gpt-4 Prompt units, a
TextReplacement, then one more gpt-4 Prompt unit. -/
def c1PromptA : Unit := .Prompt 1 "a" .OpenAI "gpt-4" "s1" "u1"

def c1PromptB : Unit := .Prompt 2 "b" .OpenAI "gpt-4" "s2" "u2"

def c1Replacement : Unit := .TextReplacement 3 "t" "x" "y" false true

def c1PromptC : Unit := .Prompt 4 "c" .OpenAI "gpt-4" "s3" "u3"

def c1Input : List Unit := [c1PromptA, c1PromptB, c1Replacement, c1PromptC]

def c2Unit1 : ProcessingUnit :=
  ⟨1, "P1", none, .Prompt .OpenAI "gpt-4" "sys1" ("do " ++ inputPlaceholder)⟩

def c2Unit2 : ProcessingUnit :=
  ⟨2, "P2", none, .Prompt .OpenAI "gpt-4" "sys2" ("then " ++ inputPlaceholder)⟩

def c2Pipe : Pipeline := ⟨7, "pl", none, true, [⟨1, true⟩, ⟨2, true⟩], []⟩

def c3Pipeline : Pipeline :=
  ⟨8, "pl", none, false, [], [.TextReplacement 9 "r" "a" "b" false true]⟩

def c6Pipeline : Pipeline := ⟨10, "p", none, true, [], [c1PromptA, c1PromptB]⟩

/-! ### Claims C8 and C10 -/

/-- After regex::escape, the pattern parses back to exactly the original
literal characters: an escaped find string always lies in the literal
fragment and is never read as regex syntax. -/
theorem parseLiteralPattern_escapeChars (l : List Char) :
    parseLiteralPattern (escapeChars l) = some l := by
  induction l with
  | nil => rfl
  | cons c l ih =>
    by_cases hm : isRegexMeta c
    · simp [escapeChars, hm, parseLiteralPattern, ih]
    · have hc : c ≠ '\\' := by
        intro h
        rw [h] at hm
        simp [isRegexMeta] at hm
      have he : escapeChars (c :: l) = c :: escapeChars l := by
        simp [escapeChars, hm]
      rw [he, parseLiteralPattern.eq_def]
      dsimp only
      simp [hc, hm, ih]

/-- C8: a non-regex case-insensitive TextReplacement never interprets its
find string as a pattern: the escaped pattern parses back to the literal
find characters, the unit executes as a case-insensitive literal replace-all
of find for every input, on input "hello HELLO world" with find "Hello" and
replace "hi" it produces "hi hi world", and a find string containing the
regex metacharacter dot matches only a literal dot, leaving "abc"
unchanged. -/
theorem text_replacement_ci_literal :
    (∀ find : String, parseLiteralPattern (regexEscape find).data = some find.data) ∧
    (∀ (client : ChatCall → Except PipeError String) (input find repl : String),
        execute_unit_type client literalEngine input
            (.TextReplacement find repl false false) =
          (.ok ⟨literalReplaceAll find.data true repl.data input.data⟩, [])) ∧
    (execute_unit_type constClient literalEngine "hello HELLO world"
        (.TextReplacement "Hello" "hi" false false)).1 = .ok "hi hi world" ∧
    (execute_unit_type constClient literalEngine "abc"
        (.TextReplacement "a.c" "X" false false)).1 = .ok "abc" := by
  refine ⟨?_, ?_, rfl, rfl⟩
  · intro find
    exact parseLiteralPattern_escapeChars find.data
  · intro client input find repl
    simp [execute_unit_type, literalEngine, regexEscape, parseLiteralPattern_escapeChars]

/-- C10: the replacement string is handed to the engine replace_all with
dollar expansion in regex mode and in non-regex case-insensitive mode (a
group 0 reference expands to the matched text), while the non-regex
case-sensitive mode is Rust String::replace and inserts the replacement
verbatim for every occurrence. -/
theorem replacement_dollar_expansion :
    (execute_unit_type constClient literalEngine "say hello"
        (.TextReplacement "hello" "[$0]" true true)).1 = .ok "say [hello]" ∧
    (execute_unit_type constClient literalEngine "hello"
        (.TextReplacement "Hello" "[$0]" false false)).1 = .ok "[hello]" ∧
    (execute_unit_type constClient literalEngine "say hello"
        (.TextReplacement "hello" "[$0]" false true)).1 = .ok "say [$0]" ∧
    (∀ (client : ChatCall → Except PipeError String) (rx : RegexEngine)
        (input find repl : String),
        execute_unit_type client rx input (.TextReplacement find repl false true) =
          (.ok (strReplace input find repl), [])) :=
  ⟨rfl, rfl, rfl, fun _ _ _ _ _ => rfl⟩

/-! ### Batch planner lemmas -/

/-- In every state of the planner loop, the concatenation of the units of the
emitted batches is the pending open batch followed by the remaining input. -/
theorem create_batchesGo_join (us : List Unit) :
    ∀ curB curP curM,
      ((create_batchesGo us curB curP curM).map UnitBatch.units).flatten = curB ++ us := by
  induction us with
  | nil =>
    intro curB curP curM
    by_cases h : curB = []
    · simp [create_batchesGo, h]
    · simp [create_batchesGo, h]
  | cons u us ih =>
    intro curB curP curM
    cases u with
    | Prompt id name p m sp upt =>
      cases p
      cases curP with
      | none => simp [create_batchesGo, ih]
      | some bp =>
        cases bp
        cases curM with
        | none => simp [create_batchesGo, ih]
        | some bm =>
          by_cases hm : m = bm
          · simp [create_batchesGo, hm, ih]
          · by_cases hB : curB = []
            · simp [create_batchesGo, hm, hB, ih]
            · simp [create_batchesGo, hm, hB, ih]
    | TextReplacement id name f r rg cs =>
      by_cases hB : curB = []
      · simp [create_batchesGo, hB, ih]
      · simp [create_batchesGo, hB, ih]

/-- C1: on the input [Prompt(gpt-4), Prompt(gpt-4), TextReplacement,
Prompt(gpt-4)] the planner emits three batches of sizes 2, 1, 1 as the claim
says, but the final singleton Prompt batch flushed at end of input is marked
optimizable = true: the end-of-input flush tests that a provider and model
are set rather than that the batch has at least two units, so the claimed
pattern of optimizable flags [true, false, false] does not hold. -/
theorem create_batches_trailing_singleton_optimizable :
    (create_batches c1Input).map (fun b => (b.units.length, b.optimizable)) =
        [(2, true), (1, false), (1, true)] ∧
      (create_batches c1Input).map (fun b => b.optimizable) ≠ [true, false, false] := by
  exact ⟨rfl, by decide⟩

/-- C7: concatenating the contents of all emitted batches, in order,
reconstructs the input unit list exactly. -/
theorem create_batches_concat_eq_input (units : List Unit) :
    ((create_batches units).map UnitBatch.units).flatten = units := by
  simpa using create_batchesGo_join units [] none none

/-! ### Executor lemmas -/

/-- execute_unit_type performs exactly one external call for a Prompt unit
and none for a TextReplacement unit. -/
theorem execute_unit_type_calls (client : ChatCall → Except PipeError String)
    (rx : RegexEngine) (input : String) (u : ProcessingUnit) :
    (execute_unit_type client rx input u.unit_type).2.length =
      if isPromptUnit u then 1 else 0 := by
  rcases hu : u.unit_type with ⟨p, mdl, sp, upt⟩ | ⟨f, r, rg, cs⟩
  · simp [execute_unit_type, isPromptUnit, hu]
  · cases rg <;> cases cs <;> simp [execute_unit_type, isPromptUnit, hu]

/-- A successful pass of the per-unit loop of execute_with_units produces one
optimized = false log entry per unit and one external call per Prompt unit. -/
theorem run_units_ok (client : ChatCall → Except PipeError String) (rx : RegexEngine) :
    ∀ (us : List ProcessingUnit) (text fin : String) (entries : List ExecutionLogEntry)
      (calls : List ChatCall),
      run_units client rx text us = (.ok (fin, entries), calls) →
      entries.length = us.length ∧ (∀ en ∈ entries, en.optimized = false) ∧
        calls.length = promptCount us := by
  intro us
  induction us with
  | nil =>
    intro text fin entries calls h
    simp only [run_units, Prod.mk.injEq] at h
    obtain ⟨h1, h2⟩ := h
    obtain ⟨rfl, rfl⟩ : fin = text ∧ entries = [] := by
      simpa [eq_comm] using h1
    simp [promptCount, ← h2]
  | cons u us ih =>
    intro text fin entries calls h
    rw [run_units] at h
    rcases hx : execute_unit_type client rx text u.unit_type with ⟨r, cs1⟩
    rw [hx] at h
    cases r with
    | error e1 => simp at h
    | ok out =>
      dsimp only at h
      rcases hy : run_units client rx out us with ⟨r2, cs2⟩
      rw [hy] at h
      cases r2 with
      | error e2 => simp at h
      | ok p =>
        obtain ⟨fin2, entries2⟩ := p
        simp only [Prod.mk.injEq, Except.ok.injEq] at h
        obtain ⟨⟨hfin, hentries⟩, hcalls⟩ := h
        obtain ⟨ihlen, ihopt, ihcalls⟩ := ih out fin2 entries2 cs2 hy
        subst hentries hcalls
        refine ⟨by simp [ihlen], ?_, ?_⟩
        · intro en hen
          rcases List.mem_cons.mp hen with hen | hen
          · rw [hen]
          · exact ihopt en hen
        · have h1 : cs1.length = if isPromptUnit u then 1 else 0 := by
            have := execute_unit_type_calls client rx text u
            rw [hx] at this
            simpa using this
          by_cases hp : isPromptUnit u
          · simp [promptCount, List.filter, hp, h1, ihcalls]
            omega
          · simp [promptCount, List.filter, hp, h1, ihcalls]

/-- The concrete failing run of the per-unit loop decomposes the unit list
at a first failing unit: all units before it succeeded, the failing unit
produced the error, and no call of any later unit appears in the trace. -/
theorem run_units_error_decomp (client : ChatCall → Except PipeError String)
    (rx : RegexEngine) :
    ∀ (us : List ProcessingUnit) (text : String) (e : PipeError) (calls : List ChatCall),
      run_units client rx text us = (.error e, calls) →
      ∃ us₁ u us₂ t entries calls₁,
        us = us₁ ++ u :: us₂ ∧
        run_units client rx text us₁ = (.ok (t, entries), calls₁) ∧
        (execute_unit_type client rx t u.unit_type).1 = .error e ∧
        calls = calls₁ ++ (execute_unit_type client rx t u.unit_type).2 := by
  intro us
  induction us with
  | nil => intro text e calls h; simp [run_units] at h
  | cons u us ih =>
    intro text e calls h
    rw [run_units] at h
    rcases hx : execute_unit_type client rx text u.unit_type with ⟨r, cs1⟩
    rw [hx] at h
    cases r with
    | error e1 =>
      simp only [Prod.mk.injEq, Except.error.injEq] at h
      obtain ⟨rfl, rfl⟩ := h
      exact ⟨[], u, us, text, [], [], by simp, by simp [run_units], by simp [hx],
        by simp [hx]⟩
    | ok out =>
      dsimp only at h
      rcases hy : run_units client rx out us with ⟨r2, cs2⟩
      rw [hy] at h
      cases r2 with
      | error e2 =>
        simp only [Prod.mk.injEq, Except.error.injEq] at h
        obtain ⟨rfl, rfl⟩ := h
        obtain ⟨us₁, u', us₂, t, entries, calls₁, hsplit, hrun, hfail, hcalls⟩ :=
          ih out e2 cs2 hy
        refine ⟨u :: us₁, u', us₂, t, ⟨u.name, text, out, false⟩ :: entries,
          cs1 ++ calls₁, by simp [hsplit], ?_, hfail, ?_⟩
        · rw [run_units, hx]
          dsimp only
          rw [hrun]
        · rw [hcalls, List.append_assoc]
      | ok p => obtain ⟨f2, e2⟩ := p; simp at h

/-- The batch loop of the legacy execute decomposes a failing run at a first
failing batch: all batches before it succeeded, the failing batch produced
the error, and no call of any later batch appears in the trace. -/
theorem run_batches_error_decomp (client : ChatCall → Except PipeError String)
    (rx : RegexEngine) :
    ∀ (bs : List UnitBatch) (text : String) (e : PipeError) (calls : List ChatCall),
      run_batches client rx text bs = (.error e, calls) →
      ∃ bs₁ b bs₂ t entries calls₁ calls₂,
        bs = bs₁ ++ b :: bs₂ ∧
        run_batches client rx text bs₁ = (.ok (t, entries), calls₁) ∧
        run_one_batch client rx t b = (.error e, calls₂) ∧
        calls = calls₁ ++ calls₂ := by
  intro bs
  induction bs with
  | nil => intro text e calls h; simp [run_batches] at h
  | cons b bs ih =>
    intro text e calls h
    rw [run_batches] at h
    rcases hx : run_one_batch client rx text b with ⟨r, cs1⟩
    rw [hx] at h
    cases r with
    | error e1 =>
      simp only [Prod.mk.injEq, Except.error.injEq] at h
      obtain ⟨rfl, rfl⟩ := h
      exact ⟨[], b, bs, text, [], [], cs1, by simp, by simp [run_batches], hx, by simp⟩
    | ok p =>
      obtain ⟨out, entries1⟩ := p
      dsimp only at h
      rcases hy : run_batches client rx out bs with ⟨r2, cs2⟩
      rw [hy] at h
      cases r2 with
      | error e2 =>
        simp only [Prod.mk.injEq, Except.error.injEq] at h
        obtain ⟨rfl, rfl⟩ := h
        obtain ⟨bs₁, b', bs₂, t, entries, calls₁, calls₂, hsplit, hrun, hfail, hcalls⟩ :=
          ih out e2 cs2 hy
        refine ⟨b :: bs₁, b', bs₂, t, entries1 ++ entries, cs1 ++ calls₁, calls₂,
          by simp [hsplit], ?_, hfail, ?_⟩
        · rw [run_batches, hx]
          dsimp only
          rw [hrun]
        · rw [hcalls, List.append_assoc]
      | ok p2 => obtain ⟨f2, e2⟩ := p2; simp at h

/-! ### Claim C2 -/

/-- C2 counterexample: executing a pipeline through unit references with two
consecutive Prompt units sharing provider and model performs two external
completion calls and produces two log entries, both optimized = false — not
one call and one optimized = true entry: execute_with_units never invokes
the batch planner. -/
theorem execute_with_units_no_planner_cx :
    execute_with_units constClient literalEngine 0 "in" c2Pipe [c2Unit1, c2Unit2] =
        (.ok ⟨"out", [⟨"P1", "in", "out", false⟩, ⟨"P2", "out", "out", false⟩], 0⟩,
         [⟨"sys1", "do in", "gpt-4"⟩, ⟨"sys2", "then out", "gpt-4"⟩]) ∧
      (execute_with_units constClient literalEngine 0 "in" c2Pipe
          [c2Unit1, c2Unit2]).2.length ≠ 1 := by
  exact ⟨rfl, by decide⟩

/-- C2 (amended): execution through unit references performs no batch
planning: a successful run of an enabled pipeline with a nonempty resolved
unit list executes every resolved unit individually, producing exactly one
optimized = false log entry per resolved unit and one external completion
call per resolved Prompt unit; the one-call optimized = true batch path
exists only in the legacy execute. -/
theorem execute_with_units_runs_units_individually
    (client : ChatCall → Except PipeError String) (rx : RegexEngine)
    (elapsed : ℕ) (input : String) (pl : Pipeline) (us : List ProcessingUnit)
    (res : ExecutionResult) (calls : List ChatCall)
    (hen : pl.enabled = true)
    (h : execute_with_units client rx elapsed input pl us = (.ok res, calls))
    (hne : resolve_units pl us ≠ []) :
    (∀ en ∈ res.log_entries, en.optimized = false) ∧
      res.log_entries.length = (resolve_units pl us).length ∧
      calls.length = promptCount (resolve_units pl us) := by
  simp only [execute_with_units, hen, Bool.not_true, Bool.false_eq_true, if_false] at h
  have h2 : (resolve_units pl us).isEmpty = false := by
    cases hr : resolve_units pl us with
    | nil => exact absurd hr hne
    | cons a l => rfl
  rw [h2] at h
  simp only [Bool.false_eq_true, if_false] at h
  rcases hr : run_units client rx input (resolve_units pl us) with ⟨r, cs⟩
  rw [hr] at h
  cases r with
  | error e => simp at h
  | ok p =>
    obtain ⟨fin, entries⟩ := p
    simp only [Prod.mk.injEq, Except.ok.injEq] at h
    obtain ⟨hres, hcalls⟩ := h
    obtain ⟨hlen, hopt, hc⟩ := run_units_ok client rx (resolve_units pl us) input fin entries cs hr
    subst hres
    subst hcalls
    exact ⟨hopt, hlen, hc⟩

/-- Witness for the amended C2 theorem at a concrete enabled two-Prompt-unit
pipeline. -/
theorem execute_with_units_runs_units_individually_witness :
    (execute_with_units constClient literalEngine 0 "in" c2Pipe
          [c2Unit1, c2Unit2]).2.length =
        promptCount (resolve_units c2Pipe [c2Unit1, c2Unit2]) ∧
      (2 : ℕ) = (resolve_units c2Pipe [c2Unit1, c2Unit2]).length :=
  have h := execute_with_units_runs_units_individually constClient literalEngine 0 "in"
    c2Pipe [c2Unit1, c2Unit2]
    ⟨"out", [⟨"P1", "in", "out", false⟩, ⟨"P2", "out", "out", false⟩], 0⟩
    [⟨"sys1", "do in", "gpt-4"⟩, ⟨"sys2", "then out", "gpt-4"⟩]
    rfl rfl (by decide)
  ⟨by exact h.2.2, by exact h.2.1⟩

/-! ### Claim C3 -/

/-- C3 counterexample: the legacy execute path performs no enabled check: a
disabled pipeline with one inline TextReplacement unit transforms the input
"a" into "b" and logs one entry, instead of returning the input unchanged
with an empty log. -/
theorem execute_ignores_enabled_cx :
    Pipeline.execute constClient literalEngine 5 true "a" c3Pipeline =
        (.ok ⟨"b", [⟨"r", "a", "b", false⟩], 5⟩, []) ∧
      c3Pipeline.enabled = false ∧ ("b" : String) ≠ "a" := by
  exact ⟨rfl, rfl, by decide⟩

/-- C3 (amended): execution through unit references short-circuits for a
disabled pipeline, and for an empty resolved enabled unit list, to the
unmodified input, an empty log, a zero total duration and no external calls;
the legacy execute over inline units ignores the enabled flag. -/
theorem execute_with_units_short_circuit
    (client : ChatCall → Except PipeError String) (rx : RegexEngine)
    (elapsed : ℕ) (input : String) (pl : Pipeline) (us : List ProcessingUnit)
    (h : pl.enabled = false ∨ resolve_units pl us = []) :
    execute_with_units client rx elapsed input pl us = (.ok ⟨input, [], 0⟩, []) := by
  rcases h with h | h
  · simp [execute_with_units, h]
  · cases hb : pl.enabled <;> simp [execute_with_units, hb, h]

/-- Witness for the amended C3 theorem at a concrete disabled pipeline. -/
theorem execute_with_units_short_circuit_witness :
    execute_with_units constClient literalEngine 9 "txt" c3Pipeline [] =
      (.ok ⟨"txt", [], 0⟩, []) :=
  execute_with_units_short_circuit constClient literalEngine 9 "txt" c3Pipeline []
    (Or.inl rfl)

/-! ### Claim C6 -/

/-- C6: a failing run returns only the error. On both execution paths, when
the returned value is an error, the planned unit (respectively batch) list
decomposes at a first failing element: everything before it ran
successfully, the failing element produced exactly this error, the
accumulated partial log (entries) appears nowhere in the returned value, and
the call trace contains no call from any later unit or batch. -/
theorem pipeline_failure_returns_only_error :
    (∀ (client : ChatCall → Except PipeError String) (rx : RegexEngine)
        (elapsed : ℕ) (input : String) (pl : Pipeline) (us : List ProcessingUnit)
        (e : PipeError) (calls : List ChatCall),
        execute_with_units client rx elapsed input pl us = (.error e, calls) →
        ∃ us₁ u us₂ t entries calls₁,
          resolve_units pl us = us₁ ++ u :: us₂ ∧
          run_units client rx input us₁ = (.ok (t, entries), calls₁) ∧
          (execute_unit_type client rx t u.unit_type).1 = .error e ∧
          calls = calls₁ ++ (execute_unit_type client rx t u.unit_type).2) ∧
    (∀ (client : ChatCall → Except PipeError String) (rx : RegexEngine)
        (elapsed : ℕ) (opt : Bool) (input : String) (pl : Pipeline)
        (e : PipeError) (calls : List ChatCall),
        Pipeline.execute client rx elapsed opt input pl = (.error e, calls) →
        ∃ bs₁ b bs₂ t entries calls₁ calls₂,
          plan_batches opt pl = bs₁ ++ b :: bs₂ ∧
          run_batches client rx input bs₁ = (.ok (t, entries), calls₁) ∧
          run_one_batch client rx t b = (.error e, calls₂) ∧
          calls = calls₁ ++ calls₂) := by
  constructor
  · intro client rx elapsed input pl us e calls h
    cases hb : pl.enabled with
    | false => simp [execute_with_units, hb] at h
    | true =>
      simp only [execute_with_units, hb, Bool.not_true, Bool.false_eq_true, if_false] at h
      cases hr : (resolve_units pl us).isEmpty with
      | true => rw [hr] at h; simp at h
      | false =>
        rw [hr] at h
        simp only [Bool.false_eq_true, if_false] at h
        rcases hrun : run_units client rx input (resolve_units pl us) with ⟨r, cs⟩
        rw [hrun] at h
        cases r with
        | error e1 =>
          simp only [Prod.mk.injEq, Except.error.injEq] at h
          obtain ⟨rfl, rfl⟩ := h
          exact run_units_error_decomp client rx (resolve_units pl us) input e1 cs hrun
        | ok p => obtain ⟨f, en⟩ := p; simp at h
  · intro client rx elapsed opt input pl e calls h
    rw [Pipeline.execute] at h
    rcases hrun : run_batches client rx input (plan_batches opt pl) with ⟨r, cs⟩
    rw [hrun] at h
    cases r with
    | error e1 =>
      simp only [Prod.mk.injEq, Except.error.injEq] at h
      obtain ⟨rfl, rfl⟩ := h
      exact run_batches_error_decomp client rx (plan_batches opt pl) input e1 cs hrun
    | ok p => obtain ⟨f, en⟩ := p; simp at h

/-- Witness for C6 on the legacy path: a concrete pipeline whose first
(optimizable) batch fails decomposes as the theorem states. -/
theorem pipeline_failure_returns_only_error_witness :
    ∃ bs₁ b bs₂ t entries calls₁ calls₂,
      plan_batches true c6Pipeline = bs₁ ++ b :: bs₂ ∧
      run_batches failClient literalEngine "in" bs₁ = (.ok (t, entries), calls₁) ∧
      run_one_batch failClient literalEngine t b = (.error (.api 500 "boom"), calls₂) ∧
      (Pipeline.execute failClient literalEngine 5 true "in" c6Pipeline).2 =
        calls₁ ++ calls₂ :=
  have h := pipeline_failure_returns_only_error.2 failClient literalEngine 5 true "in"
    c6Pipeline (.api 500 "boom")
    (Pipeline.execute failClient literalEngine 5 true "in" c6Pipeline).2 rfl
  h

/-! ### Claim C4 -/

/-- C4 counterexample: on an empty 16 kHz mono buffer the analyzer succeeds
with an empty output and empty region list, but min_rms keeps its f32::MAX
sentinel (and max_rms its f32::MIN sentinel) because no window ever updates
the accumulators — the statistics are not all zero. -/
theorem remove_silence_empty_sentinel_cx :
    remove_silence (SilenceRemover.new (1 / 10000) 1000) ⟨[], 16000, 1⟩ =
        some (⟨[], 16000, 1⟩, ⟨f32Max, -f32Max, 0, [], 0, 0, 0⟩) ∧
      f32Max ≠ 0 := by
  constructor
  · with_unfolding_all rfl
  · with_unfolding_all decide

/-- C4 (amended): an empty buffer with a sample rate of at least 10 Hz and
at least one channel yields an empty output buffer, an empty region list,
and zero avg_rms, reduction_percent and durations, while min_rms and max_rms
remain the f32::MAX and f32::MIN sentinels. A sample rate below 10 Hz makes
the window size 0 and the chunking panic even for an empty buffer. -/
theorem remove_silence_empty_buffer (t : ℚ) (m sr ch : ℕ)
    (hsr : 10 ≤ sr) (hch : 1 ≤ ch) :
    remove_silence (SilenceRemover.new t m) ⟨[], sr, ch⟩ =
      some (⟨[], sr, ch⟩, ⟨f32Max, -f32Max, 0, [], 0, 0, 0⟩) := by
  have hw : windowSamples (SilenceRemover.new t m) ⟨[], sr, ch⟩ ≠ 0 := by
    have h1 : 1 ≤ sr * 100 / 1000 := by
      rw [Nat.le_div_iff_mul_le (by norm_num : 0 < 1000)]
      omega
    simp only [windowSamples, SilenceRemover.new]
    omega
  have hch0 : ¬ch = 0 := by omega
  have hsr0 : ¬sr = 0 := by omega
  rw [remove_silence]
  rw [if_neg hw]
  simp [windowRms, chunksF, silenceFlags, find_silence_regions, rebuild_samples,
    listSlice, AudioBuffer.duration, hch0, hsr0]

/-- Witness for the amended C4 theorem at a concrete 44.1 kHz stereo empty
buffer. -/
theorem remove_silence_empty_buffer_witness :
    remove_silence (SilenceRemover.new (1 / 100) 500) ⟨[], 44100, 2⟩ =
      some (⟨[], 44100, 2⟩, ⟨f32Max, -f32Max, 0, [], 0, 0, 0⟩) :=
  remove_silence_empty_buffer (1 / 100) 500 44100 2 (by norm_num) (by norm_num)

/-! ### Claim C5 -/

/-- C5 counterexample: with min_duration_ms = 150 and a buffer of one silent
1-sample window (10 Hz), the analyzer removes a region of one window even
though 1 window times 100 ms is less than 150 ms: the qualification rule is
run_windows greater or equal min_duration_ms / window_ms with integer
division, not run_windows * window_ms greater or equal min_duration_ms. -/
theorem remove_silence_short_run_cx :
    remove_silence (SilenceRemover.new 1 150) ⟨[0], 10, 1⟩ =
        some (⟨[], 10, 1⟩, ⟨0, 0, 0, [⟨0, 1⟩], 100, 1 / 10, 0⟩) ∧
      ¬(150 ≤ 1 * 100) := by
  constructor
  · with_unfolding_all rfl
  · norm_num

/-- The region-marking loop emits exactly the maximal silent runs spanning
at least minW windows, scaled to sample frames; a run reaching the end of
the window list is closed at the total sample count, all others at their
final window boundary. -/
theorem find_silence_regions_eq_runs (minW w total : ℕ) :
    ∀ (flags : List Bool) (i : ℕ) (st : Option ℕ),
      find_silence_regions minW w total flags i st =
        ((silent_runs flags i st).filter fun r => minW ≤ r.2 - r.1).map
          fun r =>
            ⟨r.1 * w, if r.2 = i + flags.length then total else r.2 * w⟩ := by
  intro flags
  induction flags with
  | nil =>
    intro i st
    cases st with
    | none => simp [find_silence_regions, silent_runs]
    | some s =>
      by_cases h : minW ≤ i - s
      · simp [find_silence_regions, silent_runs, h]
      · simp [find_silence_regions, silent_runs, h]
  | cons b rest ih =>
    intro i st
    have harith : i + (rest.length + 1) = i + 1 + rest.length := by omega
    cases b with
    | true =>
      cases st with
      | none => simp [find_silence_regions, silent_runs, ih, harith]
      | some s => simp [find_silence_regions, silent_runs, ih, harith]
    | false =>
      cases st with
      | none => simp [find_silence_regions, silent_runs, ih, harith]
      | some s =>
        have hne : i ≠ i + (rest.length + 1) := by omega
        by_cases hq : minW ≤ i - s
        · simp [find_silence_regions, silent_runs, ih, harith, List.filter_cons, hq, hne]
          rw [if_neg (by omega : ¬i = i + 1 + rest.length)]
        · simp [find_silence_regions, silent_runs, ih, harith, List.filter_cons, hq]

/-- C5 (amended): a maximal run of consecutive silent windows becomes a
removable SilenceRegion exactly when its window count is at least
min_duration_ms / window_size_ms (integer division) — not when
run_windows * window_ms reaches min_duration_ms as the claim states; runs
are never merged across non-silent or too-short gaps, and a trailing run
ending at the last window is closed at the buffer end under the same
rule. -/
theorem silence_regions_characterization (cfg : SilenceRemover) (audio : AudioBuffer)
    (buf : AudioBuffer) (analysis : SilenceAnalysis)
    (h : remove_silence cfg audio = some (buf, analysis)) :
    analysis.silence_regions =
      ((silent_runs (silenceFlags cfg audio) 0 none).filter fun r =>
          cfg.min_duration_ms / cfg.window_size_ms ≤ r.2 - r.1).map
        fun r =>
          ⟨r.1 * windowSamples cfg audio,
           if r.2 = (silenceFlags cfg audio).length then audio.samples.length
           else r.2 * windowSamples cfg audio⟩ := by
  simp only [remove_silence] at h
  by_cases hw : windowSamples cfg audio = 0
  · rw [if_pos hw] at h
    exact absurd h (by simp)
  · rw [if_neg hw] at h
    rcases hr : rebuild_samples audio.samples 0
        (find_silence_regions (cfg.min_duration_ms / cfg.window_size_ms)
          (windowSamples cfg audio) audio.samples.length (silenceFlags cfg audio) 0 none)
      with _ | ns
    · rw [hr] at h
      simp at h
    · rw [hr] at h
      dsimp only at h
      rcases hd1 : audio.duration with _ | od
      · rw [hd1] at h
        simp at h
      · rw [hd1] at h
        dsimp only at h
        rcases hd2 : (⟨ns, audio.sample_rate, audio.channels⟩ : AudioBuffer).duration
          with _ | nd
        · rw [hd2] at h
          simp at h
        · rw [hd2] at h
          dsimp only at h
          simp only [Option.some.injEq, Prod.mk.injEq] at h
          obtain ⟨hbuf, hana⟩ := h
          rw [← hana]
          simpa using find_silence_regions_eq_runs
            (cfg.min_duration_ms / cfg.window_size_ms) (windowSamples cfg audio)
            audio.samples.length (silenceFlags cfg audio) 0 none

/-- Witness for the amended C5 theorem on the one-window silent buffer. -/
theorem silence_regions_characterization_witness :
    (⟨0, 0, 0, [⟨0, 1⟩], 100, 1 / 10, 0⟩ : SilenceAnalysis).silence_regions =
      ((silent_runs (silenceFlags (SilenceRemover.new 1 150) ⟨[0], 10, 1⟩) 0 none).filter
          fun r =>
            (SilenceRemover.new 1 150).min_duration_ms /
                (SilenceRemover.new 1 150).window_size_ms ≤ r.2 - r.1).map
        fun r =>
          ⟨r.1 * windowSamples (SilenceRemover.new 1 150) ⟨[0], 10, 1⟩,
           if r.2 = (silenceFlags (SilenceRemover.new 1 150) ⟨[0], 10, 1⟩).length
           then (⟨[0], 10, 1⟩ : AudioBuffer).samples.length
           else r.2 * windowSamples (SilenceRemover.new 1 150) ⟨[0], 10, 1⟩⟩ :=
  silence_regions_characterization (SilenceRemover.new 1 150) ⟨[0], 10, 1⟩ ⟨[], 10, 1⟩
    ⟨0, 0, 0, [⟨0, 1⟩], 100, 1 / 10, 0⟩ (by with_unfolding_all rfl)

/-! ### Claim C9 -/

/-- Region well-formedness is antitone in the lower bound. -/
theorem RegionsOK_mono (len : ℕ) :
    ∀ (rs : List SilenceRegion) (lb lb' : ℕ), RegionsOK len lb rs → lb' ≤ lb →
      RegionsOK len lb' rs
  | [], _, _, _, _ => trivial
  | _ :: _, _, _, h, hle => ⟨le_trans hle h.1, h.2.1, h.2.2.1, h.2.2.2⟩

/-- Output reconstruction never goes out of bounds on a well-formed region
list: no slice of the rebuild loop panics. -/
theorem rebuild_samples_isSome (samples : List ℚ) :
    ∀ (rs : List SilenceRegion) (lb : ℕ),
      RegionsOK samples.length lb rs → lb ≤ samples.length →
      (rebuild_samples samples lb rs).isSome := by
  intro rs
  induction rs with
  | nil =>
    intro lb _ hlb
    simp [rebuild_samples, listSlice, hlb]
  | cons r rs ih =>
    intro lb hok hlb
    obtain ⟨h1, h2, h3, h4⟩ := hok
    have hs : listSlice samples lb r.start_frame =
        some ((samples.drop lb).take (r.start_frame - lb)) := by
      rw [listSlice, if_pos ⟨h1, le_trans h2 h3⟩]
    rw [rebuild_samples, hs]
    have hrec := ih r.end_frame h4 h3
    rcases hx : rebuild_samples samples r.end_frame rs with _ | v
    · rw [hx] at hrec
      simp at hrec
    · simp [hx]

/-- Chunk index bound: with a positive window size and fuel at least the
list length, every chunk index scaled by the window size points strictly
inside the list. -/
theorem chunksF_pos_bound (w : ℕ) (hw : 1 ≤ w) :
    ∀ (fuel : ℕ) (l : List ℚ), l.length ≤ fuel →
      ∀ j, j < (chunksF w fuel l).length → j * w < l.length := by
  intro fuel
  induction fuel with
  | zero =>
    intro l hl j hj
    simp [chunksF] at hj
  | succ fuel ih =>
    intro l hl j hj
    cases l with
    | nil => simp [chunksF] at hj
    | cons a l' =>
      rw [chunksF] at hj
      cases j with
      | zero => simp
      | succ j' =>
        have hj' : j' < (chunksF w fuel ((a :: l').drop w)).length := by
          simpa using hj
        have hdrop : ((a :: l').drop w).length ≤ fuel := by
          rw [List.length_drop, List.length_cons]
          have hl' : l'.length + 1 ≤ fuel + 1 := by simpa using hl
          omega
        have hlt := ih ((a :: l').drop w) hdrop j' hj'
        rw [List.length_drop] at hlt
        have hlen : w < (a :: l').length := by
          by_contra hge
          push_neg at hge
          have hnil : (a :: l').drop w = [] := List.drop_eq_nil_of_le hge
          rw [hnil] at hj'
          cases fuel with
          | zero => simp [chunksF] at hj'
          | succ fuel2 => simp [chunksF] at hj'
        have hmul : (j' + 1) * w = j' * w + w := Nat.succ_mul j' w
        have h2 : j' * w + w < ((a :: l').length - w) + w := Nat.add_lt_add_right hlt w
        have h3 : ((a :: l').length - w) + w = (a :: l').length := Nat.sub_add_cancel hlen.le
        rw [hmul, ← h3]
        exact h2

/-- Every region list produced by the marking loop is well formed, provided
every window index points inside the sample list and the open-run start (if
any) is strictly before the current index. -/
theorem find_silence_regions_ok (minW w total : ℕ) :
    ∀ (flags : List Bool) (i : ℕ) (st : Option ℕ),
      (∀ j, j < i + flags.length → j * w < total) →
      (∀ s, st = some s → s < i) →
      RegionsOK total (match st with | some s => s * w | none => i * w)
        (find_silence_regions minW w total flags i st) := by
  intro flags
  induction flags with
  | nil =>
    intro i st hb hst
    cases st with
    | none => simp [find_silence_regions, RegionsOK]
    | some s =>
      have hsi : s < i := hst s rfl
      have hsw : s * w < total := hb s (by omega)
      by_cases hq : minW ≤ i - s
      · simp only [find_silence_regions, hq, if_true]
        exact ⟨le_refl _, hsw.le, le_refl _, trivial⟩
      · simp [find_silence_regions, hq, RegionsOK]
  | cons b rest ih =>
    intro i st hb hst
    have hb' : ∀ j, j < (i + 1) + rest.length → j * w < total := by
      intro j hj
      exact hb j (by simp; omega)
    cases b with
    | true =>
      cases st with
      | none =>
        have h := ih (i + 1) (some i) hb' (by intro s hs; cases hs; omega)
        simpa [find_silence_regions] using h
      | some s =>
        have hsi : s < i := hst s rfl
        have h := ih (i + 1) (some s) hb' (by intro s' hs'; cases hs'; omega)
        simpa [find_silence_regions] using h
    | false =>
      cases st with
      | none =>
        have h := ih (i + 1) none hb' (by intro s hs; cases hs)
        have h' : RegionsOK total (i * w)
            (find_silence_regions minW w total rest (i + 1) none) :=
          RegionsOK_mono total _ _ _ h (Nat.mul_le_mul_right w (by omega))
        simpa [find_silence_regions] using h'
      | some s =>
        have hsi : s < i := hst s rfl
        have hiw : i * w < total := hb i (by simp)
        have h := ih (i + 1) none hb' (by intro s' hs'; cases hs')
        by_cases hq : minW ≤ i - s
        · simp only [find_silence_regions, hq, if_true, Bool.false_eq_true, if_false]
          refine ⟨le_refl _, Nat.mul_le_mul_right w hsi.le, hiw.le, ?_⟩
          exact RegionsOK_mono total _ _ _ h (Nat.mul_le_mul_right w (by omega))
        · simp only [find_silence_regions, hq, if_false, Bool.false_eq_true]
          exact RegionsOK_mono total _ _ _ h
            (Nat.mul_le_mul_right w (by omega))

/-- C9 counterexample: a buffer with a 16 kHz sample rate but zero channels
makes the source panic although its sample rate is at least 10 Hz:
AudioBuffer::duration divides the sample count by the channel count, and
remove_silence calls it unconditionally after the reconstruction — so the
analyzer is not total on every buffer with sample_rate at least 10. -/
theorem remove_silence_channels_zero_cx :
    remove_silence (SilenceRemover.new 1 100) ⟨[], 16000, 0⟩ = none ∧
      10 ≤ (⟨[], 16000, 0⟩ : AudioBuffer).sample_rate := by
  constructor
  · with_unfolding_all rfl
  · norm_num

/-- C9 (amended): with the fixed 100 ms window, the analyzer returns
normally exactly when the sample rate is at least 10 Hz and the channel
count is nonzero: below 10 Hz the window size in samples,
floor(sample_rate * 100 / 1000), truncates to 0 and the sample chunking
panics, and with zero channels the duration computation divides the sample
count by zero — unstated preconditions of the interface. The window size is
0 exactly when the sample rate is below 10 Hz. -/
theorem remove_silence_total_iff (t : ℚ) (m : ℕ) (audio : AudioBuffer) :
    ((remove_silence (SilenceRemover.new t m) audio).isSome ↔
        10 ≤ audio.sample_rate ∧ 1 ≤ audio.channels) ∧
      (windowSamples (SilenceRemover.new t m) audio = 0 ↔
        audio.sample_rate < 10) := by
  have hwnd : windowSamples (SilenceRemover.new t m) audio = audio.sample_rate / 10 := by
    simp only [windowSamples, SilenceRemover.new]
    rw [show (1000 : ℕ) = 10 * 100 from rfl]
    exact Nat.mul_div_mul_right audio.sample_rate 10 (by norm_num)
  have hw0 : windowSamples (SilenceRemover.new t m) audio = 0 ↔
      audio.sample_rate < 10 := by
    rw [hwnd]
    exact Nat.div_eq_zero_iff (by norm_num)
  refine ⟨⟨?_, ?_⟩, hw0⟩
  · intro h
    by_cases hz : windowSamples (SilenceRemover.new t m) audio = 0
    · rw [remove_silence, if_pos hz] at h
      simp at h
    · have hsr : 10 ≤ audio.sample_rate := by
        have := (not_iff_not.mpr hw0).mp hz
        omega
      refine ⟨hsr, ?_⟩
      by_contra hch
      push_neg at hch
      have hch0 : audio.channels = 0 := by omega
      rw [remove_silence, if_neg hz] at h
      rcases hx : rebuild_samples audio.samples 0
          (find_silence_regions
            ((SilenceRemover.new t m).min_duration_ms /
              (SilenceRemover.new t m).window_size_ms)
            (windowSamples (SilenceRemover.new t m) audio) audio.samples.length
            (silenceFlags (SilenceRemover.new t m) audio) 0 none)
        with _ | ns
      · simp [hx] at h
      · simp [hx, AudioBuffer.duration, hch0] at h
  · rintro ⟨hsr, hch⟩
    have hwpos : ¬windowSamples (SilenceRemover.new t m) audio = 0 := by
      rw [hw0]
      omega
    have hw1 : 1 ≤ windowSamples (SilenceRemover.new t m) audio := by omega
    have hflen : (silenceFlags (SilenceRemover.new t m) audio).length =
        (chunksF (windowSamples (SilenceRemover.new t m) audio)
          audio.samples.length audio.samples).length := by
      simp [silenceFlags, windowRms]
    have hb : ∀ j, j < 0 + (silenceFlags (SilenceRemover.new t m) audio).length →
        j * windowSamples (SilenceRemover.new t m) audio < audio.samples.length := by
      intro j hj
      rw [Nat.zero_add, hflen] at hj
      exact chunksF_pos_bound (windowSamples (SilenceRemover.new t m) audio) hw1
        audio.samples.length audio.samples le_rfl j hj
    have hok := find_silence_regions_ok
      ((SilenceRemover.new t m).min_duration_ms / (SilenceRemover.new t m).window_size_ms)
      (windowSamples (SilenceRemover.new t m) audio) audio.samples.length
      (silenceFlags (SilenceRemover.new t m) audio) 0 none hb
      (by intro s hs; cases hs)
    have hok0 : RegionsOK audio.samples.length 0
        (find_silence_regions
          ((SilenceRemover.new t m).min_duration_ms /
            (SilenceRemover.new t m).window_size_ms)
          (windowSamples (SilenceRemover.new t m) audio) audio.samples.length
          (silenceFlags (SilenceRemover.new t m) audio) 0 none) := by
      simpa using hok
    have hreb := rebuild_samples_isSome audio.samples _ 0 hok0 (Nat.zero_le _)
    rw [remove_silence, if_neg hwpos]
    rcases hx : rebuild_samples audio.samples 0
        (find_silence_regions
          ((SilenceRemover.new t m).min_duration_ms /
            (SilenceRemover.new t m).window_size_ms)
          (windowSamples (SilenceRemover.new t m) audio) audio.samples.length
          (silenceFlags (SilenceRemover.new t m) audio) 0 none)
      with _ | ns
    · rw [hx] at hreb
      simp at hreb
    · have hch0 : ¬audio.channels = 0 := by omega
      have hsr0 : ¬audio.sample_rate = 0 := by omega
      simp [hx, AudioBuffer.duration, hch0, hsr0]

end WhisperCat
